import Mathlib

/-!
Verification model of the `solid-ag-chat` client-side chat store.

The embedding follows the source files:
  * the event-reducer store `createAgUiStore` (handlers for
    `conversation.*`, `message.*`, `TEXT_MESSAGE_*`, `TOOL_CALL_*`,
    `attachment.*`, `STATE_SNAPSHOT`, and the imperative operations
    `loadConversations` / `loadMessages`), and
  * the localStorage persistence helpers `saveAgentState` / `loadAgentState`.

Modelling conventions:
  * JS objects used as string-keyed dictionaries become association lists
    (`SMap`); property lookup takes the first matching key, property set
    replaces in place or appends, `delete` removes the key.  This matches
    JS object key ordering (existing keys keep their position, new keys go
    last), which matters because `TOOL_CALL_RESULT` scans
    `Object.values(state.messages)` in key order.
  * solid-js `setState` shallow-merges plain (non-array) objects at a path
    into the existing value.  Handlers that write an object literal over an
    existing record therefore overwrite exactly the keys the literal
    carries and keep the rest; the model reproduces this field by field
    (e.g. `TEXT_MESSAGE_START` over an existing message keeps its
    `toolCalls`/`toolCallId`).  External payload records (`message.created`,
    server messages in `loadMessages`, attachment payloads) are taken to
    carry every field, so their merge is a plain replacement.
  * `setState` on a path whose parent is `undefined` throws in JS; the
    model makes such path-updates no-ops (`mapModify` of an absent key).
    No claim exercises that corner.
  * Timestamps (`new Date().toISOString()`, `Date.now()`) are modelled as
    `Nat` epoch values supplied with the event; a missing `createdAt`
    sorts as epoch 0 exactly as `new Date(a.createdAt || 0).getTime()`.
  * `Array.prototype.sort` is stable (ES2019); the model uses the stable
    `List.insertionSort`.
-/

/-- String-keyed association map modelling a JS object dictionary. -/
abbrev SMap (V : Type) := List (String × V)

/-- Property lookup: first matching key. -/
def mapFind {V : Type} : SMap V → String → Option V
  | [], _ => none
  | (k', v) :: rest, k => if k' = k then some v else mapFind rest k

/-- Property set: replace in place if the key exists, else append. -/
def mapInsert {V : Type} : SMap V → String → V → SMap V
  | [], k, v => [(k, v)]
  | (k', v') :: rest, k, v =>
      if k' = k then (k, v) :: rest else (k', v') :: mapInsert rest k v

/-- Update the value at a key if present; no-op when the key is absent. -/
def mapModify {V : Type} : SMap V → String → (V → V) → SMap V
  | [], _, _ => []
  | (k', v) :: rest, k, f =>
      if k' = k then (k', f v) :: rest else (k', v) :: mapModify rest k f

/-- JS `delete obj[k]` / solid `setState(..., k, undefined)`. -/
def mapErase {V : Type} : SMap V → String → SMap V
  | [], _ => []
  | (k', v) :: rest, k =>
      if k' = k then mapErase rest k else (k', v) :: mapErase rest k

theorem mapFind_insert {V : Type} (m : SMap V) (k' k : String) (v : V) :
    mapFind (mapInsert m k' v) k = if k' = k then some v else mapFind m k := by
  induction m with
  | nil => simp [mapInsert, mapFind]
  | cons hd tl ih =>
    obtain ⟨k0, v0⟩ := hd
    by_cases h0 : k0 = k'
    · subst h0
      by_cases h1 : k0 = k <;> simp [mapInsert, mapFind, h1]
    · by_cases h1 : k0 = k
      · subst h1
        have : ¬ k' = k0 := fun h => h0 h.symm
        simp [mapInsert, mapFind, h0, this, ih]
      · simp [mapInsert, mapFind, h0, h1, ih]

theorem mapFind_modify {V : Type} (m : SMap V) (k' k : String) (f : V → V) :
    mapFind (mapModify m k' f) k =
      if k' = k then (mapFind m k).map f else mapFind m k := by
  induction m with
  | nil => simp [mapModify, mapFind]
  | cons hd tl ih =>
    obtain ⟨k0, v0⟩ := hd
    by_cases h0 : k0 = k'
    · subst h0
      by_cases h1 : k0 = k <;> simp [mapModify, mapFind, h1]
    · by_cases h1 : k0 = k
      · subst h1
        have : ¬ k' = k0 := fun h => h0 h.symm
        simp [mapModify, mapFind, h0, this]
      · simp [mapModify, mapFind, h0, h1, ih]

theorem mapFind_erase {V : Type} (m : SMap V) (k' k : String) :
    mapFind (mapErase m k') k = if k' = k then none else mapFind m k := by
  induction m with
  | nil => simp [mapErase, mapFind]
  | cons hd tl ih =>
    obtain ⟨k0, v0⟩ := hd
    by_cases h0 : k0 = k'
    · subst h0
      by_cases h1 : k0 = k
      · subst h1
        simp [mapErase, mapFind, ih]
      · simp [mapErase, mapFind, h1, ih]
    · by_cases h1 : k0 = k
      · subst h1
        have : ¬ k' = k0 := fun h => h0 h.symm
        simp [mapErase, mapFind, h0, this, ih]
      · simp [mapErase, mapFind, h0, h1, ih]

/-- A finalized tool call appended to `Message.toolCalls`
(`{id, type: 'function', function: {name, arguments}}`; the constant
`type` tag is left implicit). -/
structure ToolCall where
  id : String
  name : String
  arguments : String
  deriving DecidableEq, Repr

/-- `MessageDoc`.  `createdAt` is an epoch timestamp, `none` when the
field is missing; `toolCalls` is `[]` when absent (the source treats the
two alike via `(arr = [])` defaults). -/
structure Message where
  id : String
  role : String
  content : String
  conversationId : Option String
  status : String
  createdAt : Option Nat
  toolCalls : List ToolCall
  toolCallId : Option String
  deriving DecidableEq, Repr

/-- In-progress tool call (`toolCallsInProgress` entries). -/
structure ToolCallInProgress where
  id : String
  name : String
  args : String
  messageId : String
  deriving DecidableEq, Repr

/-- `ConversationDoc` (metadata beyond title/status is not needed by any
claim and is elided). -/
structure Conversation where
  id : String
  title : Option String
  status : String
  deriving DecidableEq, Repr

/-- The open `metadata` bag on attachments; the handlers only ever touch
`progress` and `error`. -/
structure AttachmentMeta where
  progress : Option Nat
  error : Option String
  deriving DecidableEq, Repr

structure Attachment where
  id : String
  name : String
  state : String
  metadata : AttachmentMeta
  deriving DecidableEq, Repr

/-- `ChatAgentState` from `types/state.ts`: optional fields model JS key
presence. -/
structure ChatAgentState where
  suggestedQuestions : Option (List String)
  attachments : Option (SMap Attachment)
  deriving DecidableEq, Repr

/-- `STATE_SNAPSHOT` payload: present keys overwrite on merge. -/
structure StateSnapshotPayload where
  suggestedQuestions : Option (List String)
  attachments : Option (SMap Attachment)
  deriving DecidableEq, Repr

/-- The `ChatState` held by `createStore` in `createAgUiStore`. -/
structure ChatState where
  conversations : SMap Conversation
  messages : SMap Message
  attachments : SMap Attachment
  messagesByConversation : SMap (List String)
  streaming : SMap String
  toolCallsInProgress : SMap ToolCallInProgress
  agentStateByConversation : SMap ChatAgentState
  activeConversationId : Option String
  deriving DecidableEq, Repr

/-- The normalized event vocabulary the store subscribes to.  `now`
parameters model `new Date().toISOString()` stamps taken inside a
handler. -/
inductive AgEvent where
  | conversationCreated (c : Conversation)
  | conversationUpdated (c : Conversation)
  | conversationArchived (conversationId : String)
  | messageCreated (m : Message)
  | textMessageStart (messageId : String) (role : Option String)
      (conversationId : Option String) (now : Nat)
  | textMessageContent (messageId : String) (delta : Option String)
  | textMessageEnd (messageId : String)
  | messageErrored (messageId : String)
  | messageCanceled (messageId : String)
  | toolCallStart (parentMessageId toolCallId toolCallName : String)
      (conversationId : Option String) (now : Nat)
  | toolCallArgs (toolCallId : String) (delta : Option String)
  | toolCallEnd (toolCallId : String)
  | toolCallResult (messageId toolCallId : String) (content : Option String)
      (role : Option String) (now : Nat)
  | attachmentUploading (a : Attachment)
  | attachmentProgress (fileId : String) (progress : Nat)
  | attachmentAvailable (a : Attachment)
  | attachmentFailed (fileId : String) (error : Option String)
  | stateSnapshot (conversationId : Option String)
      (snapshot : Option StateSnapshotPayload)
  deriving DecidableEq, Repr

/-- `arr.includes(id) ? arr : [...arr, id]` applied to
`messagesByConversation[cid]` (absent key defaults to `[]`). -/
def pushIdIfAbsent (seq : SMap (List String)) (cid mid : String) :
    SMap (List String) :=
  let arr := (mapFind seq cid).getD []
  if arr.contains mid then seq else mapInsert seq cid (arr ++ [mid])

/-- `conversation.created`: store the conversation and make it active. -/
def onConversationCreated (s : ChatState) (c : Conversation) : ChatState :=
  { s with conversations := mapInsert s.conversations c.id c
           activeConversationId := some c.id }

/-- `conversation.updated`. -/
def onConversationUpdated (s : ChatState) (c : Conversation) : ChatState :=
  { s with conversations := mapInsert s.conversations c.id c }

/-- `conversation.archived`: set the status field of an existing entry. -/
def onConversationArchived (s : ChatState) (cid : String) : ChatState :=
  { s with conversations :=
      mapModify s.conversations cid (fun c => { c with status := "archived" }) }

/-- `message.created` (legacy): store the payload message and append its id
to the conversation sequence if not already present. -/
def onMessageCreated (s : ChatState) (m : Message) : ChatState :=
  let s1 := { s with messages := mapInsert s.messages m.id m }
  match m.conversationId with
  | some cid =>
      { s1 with messagesByConversation :=
          pushIdIfAbsent s1.messagesByConversation cid m.id }
  | none => s1

/-- `TEXT_MESSAGE_START`: build the streaming message (role defaults to
`assistant`, conversation defaults to the active one), merge it over any
existing record (solid-js keeps the keys the literal does not carry, so an
existing `toolCalls`/`toolCallId` survives), insert the id into the
conversation sequence if absent, and open an empty streaming buffer. -/
def onTextMessageStart (s : ChatState) (mid : String) (role : Option String)
    (cid : Option String) (now : Nat) : ChatState :=
  let convId := cid.orElse (fun _ => s.activeConversationId)
  let old := mapFind s.messages mid
  let msg : Message :=
    { id := mid
      role := role.getD "assistant"
      content := ""
      conversationId := convId
      status := "streaming"
      createdAt := some now
      toolCalls := (old.map (·.toolCalls)).getD []
      toolCallId := old.bind (·.toolCallId) }
  let s1 := { s with messages := mapInsert s.messages mid msg }
  let s2 :=
    match convId with
    | some c =>
        { s1 with messagesByConversation :=
            pushIdIfAbsent s1.messagesByConversation c mid }
    | none => s1
  { s2 with streaming := mapInsert s2.streaming mid "" }

/-- `TEXT_MESSAGE_CONTENT`: append the delta to the streaming buffer
(buffer defaults to `''`, delta defaults to `''`). -/
def onTextMessageContent (s : ChatState) (mid : String)
    (delta : Option String) : ChatState :=
  let newText := ((mapFind s.streaming mid).getD "") ++ delta.getD ""
  { s with streaming := mapInsert s.streaming mid newText }

/-- `TEXT_MESSAGE_END`: flush a non-empty buffer into the message content,
drop the buffer, set status `completed`. -/
def onTextMessageEnd (s : ChatState) (mid : String) : ChatState :=
  let flushed :=
    match mapFind s.streaming mid with
    | some t =>
        if t = "" then s.messages
        else mapModify s.messages mid (fun m => { m with content := t })
    | none => s.messages
  { s with
      messages := mapModify flushed mid (fun m => { m with status := "completed" })
      streaming := mapErase s.streaming mid }

/-- `message.errored`. -/
def onMessageErrored (s : ChatState) (mid : String) : ChatState :=
  { s with messages :=
      mapModify s.messages mid (fun m => { m with status := "errored" }) }

/-- `message.canceled`: flush a non-empty streaming buffer into the content
first, then mark canceled (the buffer entry itself is left in place). -/
def onMessageCanceled (s : ChatState) (mid : String) : ChatState :=
  let flushed :=
    match mapFind s.streaming mid with
    | some t =>
        if t = "" then s.messages
        else mapModify s.messages mid (fun m => { m with content := t })
    | none => s.messages
  { s with messages :=
      mapModify flushed mid (fun m => { m with status := "canceled" }) }

/-- `TOOL_CALL_START`: synthesize a completed placeholder parent message
when the parent id is unknown, then open the in-progress entry. -/
def onToolCallStart (s : ChatState) (p tcid tcName : String)
    (cid : Option String) (now : Nat) : ChatState :=
  let s1 :=
    match mapFind s.messages p with
    | some _ => s
    | none =>
        let convId := cid.orElse (fun _ => s.activeConversationId)
        let parentMessage : Message :=
          { id := p, role := "assistant", content := ""
            conversationId := convId, status := "completed"
            createdAt := some now, toolCalls := [], toolCallId := none }
        let sA := { s with messages := mapInsert s.messages p parentMessage }
        match convId with
        | some c =>
            { sA with messagesByConversation :=
                pushIdIfAbsent sA.messagesByConversation c p }
        | none => sA
  let entry : ToolCallInProgress :=
    { id := tcid, name := tcName, args := "", messageId := p }
  { s1 with toolCallsInProgress := mapInsert s1.toolCallsInProgress tcid entry }

/-- `TOOL_CALL_ARGS`: accumulate onto the in-progress entry's args. -/
def onToolCallArgs (s : ChatState) (tcid : String) (delta : Option String) :
    ChatState :=
  let tcs := mapModify s.toolCallsInProgress tcid
    (fun tc => { tc with args := tc.args ++ delta.getD "" })
  { s with toolCallsInProgress := tcs }

/-- `TOOL_CALL_END`: when an in-progress entry exists, append the finalized
tool call to the parent message's `toolCalls` unless an entry with the same
id is already there, then drop the in-progress entry.  A missing entry is a
protocol violation: it is logged and the state is left untouched. -/
def onToolCallEnd (s : ChatState) (tcid : String) : ChatState :=
  match mapFind s.toolCallsInProgress tcid with
  | none => s
  | some tc =>
      let s1 :=
        match mapFind s.messages tc.messageId with
        | none => s
        | some _ =>
            let toolCall : ToolCall :=
              { id := tc.id, name := tc.name, arguments := tc.args }
            let newMessages := mapModify s.messages tc.messageId (fun m =>
              { m with toolCalls :=
                  if m.toolCalls.any (fun ex => ex.id = toolCall.id) then
                    m.toolCalls
                  else m.toolCalls ++ [toolCall] })
            { s with messages := newMessages }
      { s1 with toolCallsInProgress := mapErase s1.toolCallsInProgress tcid }

/-- `TOOL_CALL_RESULT`: build the tool message (conversation taken from the
first stored message owning the tool call, else the active conversation),
merge it over any existing record, and append to the sequence. -/
def onToolCallResult (s : ChatState) (mid tcid : String)
    (content : Option String) (role : Option String) (now : Nat) : ChatState :=
  let parentMessage :=
    (s.messages.map Prod.snd).find? fun m =>
      m.toolCalls.any (fun tc => tc.id = tcid)
  let convId :=
    (parentMessage.bind (·.conversationId)).orElse
      (fun _ => s.activeConversationId)
  let old := mapFind s.messages mid
  let toolMessage : Message :=
    { id := mid
      role := role.getD "tool"
      content := content.getD ""
      conversationId := convId
      status := "completed"
      createdAt := some now
      toolCalls := (old.map (·.toolCalls)).getD []
      toolCallId := some tcid }
  let s1 := { s with messages := mapInsert s.messages mid toolMessage }
  match convId with
  | some c =>
      { s1 with messagesByConversation :=
          pushIdIfAbsent s1.messagesByConversation c mid }
  | none => s1

/-- Shared dual-write of `attachment.uploading` / `attachment.available`:
store globally and merge into the active conversation's agent state. -/
def storeAttachment (s : ChatState) (a : Attachment) : ChatState :=
  let s1 := { s with attachments := mapInsert s.attachments a.id a }
  match s.activeConversationId with
  | some cid =>
      let prev := (mapFind s1.agentStateByConversation cid).getD
        { suggestedQuestions := none, attachments := none }
      let newAttachments := some (mapInsert (prev.attachments.getD []) a.id a)
      let merged : ChatAgentState := { prev with attachments := newAttachments }
      { s1 with agentStateByConversation :=
          mapInsert s1.agentStateByConversation cid merged }
  | none => s1

/-- `attachment.progress`: update `metadata.progress` on the global copy,
only when the attachment exists there. -/
def onAttachmentProgress (s : ChatState) (fid : String) (progress : Nat) :
    ChatState :=
  match mapFind s.attachments fid with
  | some _ =>
      let updated := mapModify s.attachments fid (fun a =>
        { a with metadata := { a.metadata with progress := some progress } })
      { s with attachments := updated }
  | none => s

/-- `attachment.failed`: mark the global copy failed (if present) and the
per-conversation copy failed only when an entry already exists there. -/
def onAttachmentFailed (s : ChatState) (fid : String) (err : Option String) :
    ChatState :=
  let errMsg := err.getD "Upload failed"
  let markFailed : Attachment → Attachment := fun a =>
    { a with state := "failed"
             metadata := { a.metadata with error := some errMsg } }
  let s1 :=
    match mapFind s.attachments fid with
    | some _ =>
        let updated := mapModify s.attachments fid markFailed
        { s with attachments := updated }
    | none => s
  match s1.activeConversationId with
  | some cid =>
      match ((mapFind s1.agentStateByConversation cid).bind
          (·.attachments)).bind (fun am => mapFind am fid) with
      | some _ =>
          let updated := mapModify s1.agentStateByConversation cid (fun st =>
            { st with attachments :=
                st.attachments.map (fun am => mapModify am fid markFailed) })
          { s1 with agentStateByConversation := updated }
      | none => s1
  | none => s1

/-- `STATE_SNAPSHOT`: shallow key-by-key merge of the snapshot into the
conversation's agent state (present snapshot keys win). -/
def onStateSnapshot (s : ChatState) (cid : Option String)
    (snapshot : Option StateSnapshotPayload) : ChatState :=
  let convId := cid.orElse (fun _ => s.activeConversationId)
  match convId, snapshot with
  | some c, some sn =>
      let prev := (mapFind s.agentStateByConversation c).getD
        { suggestedQuestions := none, attachments := none }
      let merged : ChatAgentState :=
        { suggestedQuestions :=
            sn.suggestedQuestions.orElse (fun _ => prev.suggestedQuestions)
          attachments := sn.attachments.orElse (fun _ => prev.attachments) }
      { s with agentStateByConversation :=
          mapInsert s.agentStateByConversation c merged }
  | _, _ => s

/-- The store's event reducer: one case per subscription in
`createAgUiStore`. -/
def handleEvent (s : ChatState) : AgEvent → ChatState
  | .conversationCreated c => onConversationCreated s c
  | .conversationUpdated c => onConversationUpdated s c
  | .conversationArchived cid => onConversationArchived s cid
  | .messageCreated m => onMessageCreated s m
  | .textMessageStart mid role cid now => onTextMessageStart s mid role cid now
  | .textMessageContent mid delta => onTextMessageContent s mid delta
  | .textMessageEnd mid => onTextMessageEnd s mid
  | .messageErrored mid => onMessageErrored s mid
  | .messageCanceled mid => onMessageCanceled s mid
  | .toolCallStart p tcid tcName cid now => onToolCallStart s p tcid tcName cid now
  | .toolCallArgs tcid delta => onToolCallArgs s tcid delta
  | .toolCallEnd tcid => onToolCallEnd s tcid
  | .toolCallResult mid tcid content role now =>
      onToolCallResult s mid tcid content role now
  | .attachmentUploading a => storeAttachment s a
  | .attachmentProgress fid progress => onAttachmentProgress s fid progress
  | .attachmentAvailable a => storeAttachment s a
  | .attachmentFailed fid err => onAttachmentFailed s fid err
  | .stateSnapshot cid snapshot => onStateSnapshot s cid snapshot

/-- Fold a sequence of events into the store. -/
def processEvents (s : ChatState) (es : List AgEvent) : ChatState :=
  es.foldl handleEvent s

/-- Sort key: `new Date(m.createdAt || 0).getTime()`. -/
def msgSortKey (m : Message) : Nat := m.createdAt.getD 0

/-- The comparator `(a, b) => aKey - bKey` as an ordering relation. -/
def byCreatedAt (a b : Message) : Prop := msgSortKey a ≤ msgSortKey b

instance : DecidableRel byCreatedAt := fun _ _ => Nat.decLe _ _

instance : IsTotal Message byCreatedAt := ⟨fun _ _ => Nat.le_total _ _⟩

instance : IsTrans Message byCreatedAt := ⟨fun _ _ _ => Nat.le_trans⟩

/-- `finalMessages.sort(...)`: `Array.prototype.sort` is stable, modelled
by stable insertion sort. -/
def sortByCreatedAt (l : List Message) : List Message :=
  List.insertionSort byCreatedAt l

/-- The preservation test of `loadMessages`:
`m.status === 'streaming' || m.id.startsWith('msg_')`. -/
def preservePred (m : Message) : Bool :=
  m.status == "streaming" || m.id.startsWith "msg_"

/-- `currentMessageIdsAfterFetch`: the conversation's sequence re-read
after the network round trip. -/
def lmCurrentIds (s : ChatState) (cid : String) : List String :=
  (mapFind s.messagesByConversation cid).getD []

/-- `finalMessages` before sorting: preserved optimistic/streaming local
messages whose id is not in the server result, then the server messages. -/
def lmFinalMessages (s : ChatState) (cid : String) (serverMsgs : List Message) :
    List Message :=
  (((lmCurrentIds s cid).filterMap (mapFind s.messages)).filter preservePred).filter
    (fun m => !(serverMsgs.any (fun sm => sm.id == m.id))) ++ serverMsgs

/-- `finalMessages` after the `createdAt` sort. -/
def lmSorted (s : ChatState) (cid : String) (serverMsgs : List Message) :
    List Message :=
  sortByCreatedAt (lmFinalMessages s cid serverMsgs)

/-- The message map after `finalMessages.forEach(m => setState('messages', m.id, m))`. -/
def lmNewMessages (s : ChatState) (cid : String) (serverMsgs : List Message) :
    SMap Message :=
  (lmSorted s cid serverMsgs).foldl (fun mp m => mapInsert mp m.id m) s.messages

/-- `messageIds` pushed during that loop (sorted order). -/
def lmMessageIds (s : ChatState) (cid : String) (serverMsgs : List Message) :
    List String :=
  (lmSorted s cid serverMsgs).map (·.id)

/-- `carryOverIds` of the second reconciliation pass: the updater receives
the old sequence but reads the already-updated message map. -/
def lmCarryOver (s : ChatState) (cid : String) (serverMsgs : List Message) :
    List String :=
  (((lmCurrentIds s cid).filterMap (mapFind (lmNewMessages s cid serverMsgs))).filter
    (fun m => preservePred m && !((lmMessageIds s cid serverMsgs).contains m.id))).map
    (·.id)

/-- The state transformation applied by `loadMessages` once the fetch for
`cid` has returned `serverMsgs`, starting from the store state `s` seen at
that moment (the pre-fetch snapshot is only logged by the source and has no
effect). -/
def loadMessagesApply (s : ChatState) (cid : String)
    (serverMsgs : List Message) : ChatState :=
  { s with
      messages := lmNewMessages s cid serverMsgs
      messagesByConversation := mapInsert s.messagesByConversation cid (lmMessageIds s cid serverMsgs ++ lmCarryOver s cid serverMsgs) }

/-- `loadConversations`: the fetched list is folded into the existing
conversation map.  (The source builds a fresh `conversationsMap` and calls
`setState('conversations', conversationsMap)`; solid-js merges a plain
object written at a path into the existing object, so entries absent from
the fetch survive.) -/
def loadConversationsApply (s : ChatState) (fetched : List Conversation) :
    ChatState :=
  { s with conversations :=
      fetched.foldl (fun mp c => mapInsert mp c.id c) s.conversations }

/-- Store state together with the `loadedConversations` /
`loadingConversations` guard sets of `createAgUiStore`. -/
structure StoreCtl where
  chat : ChatState
  loadingConversations : List String
  loadedConversations : List String
  deriving DecidableEq, Repr

/-- `Set.add`. -/
def addId (l : List String) (x : String) : List String :=
  if l.contains x then l else x :: l

/-- The guarded entry of `loadMessages`, up to the suspension point of the
network fetch: `none` means the call returned without fetching (in-flight
duplicate, or already loaded and not forced); `some` records the added
in-flight marker. -/
def lmBegin (ctl : StoreCtl) (cid : String) (force : Bool) : Option StoreCtl :=
  if ctl.loadingConversations.contains cid then none
  else if !force && ctl.loadedConversations.contains cid then none
  else some { ctl with loadingConversations := addId ctl.loadingConversations cid }

/-- Whether a call `loadMessages(cid, force)` issues a network fetch. -/
def lmFetches (ctl : StoreCtl) (cid : String) (force : Bool) : Bool :=
  (lmBegin ctl cid force).isSome

/-- The rest of `loadMessages` after the fetch resolves with `serverMsgs`:
apply the reconciliation, mark loaded, release the in-flight marker. -/
def lmFinish (ctl : StoreCtl) (cid : String) (serverMsgs : List Message) :
    StoreCtl :=
  { chat := loadMessagesApply ctl.chat cid serverMsgs
    loadingConversations := ctl.loadingConversations.erase cid
    loadedConversations := addId ctl.loadedConversations cid }

/-- One complete `loadMessages(cid, force)` call with fetch result
`serverMsgs`. -/
def lmRunSingle (ctl : StoreCtl) (cid : String) (force : Bool)
    (serverMsgs : List Message) : StoreCtl :=
  match lmBegin ctl cid force with
  | none => ctl
  | some mid => lmFinish mid cid serverMsgs

/-- Two calls for the same conversation where the second is issued while
the first is suspended on its fetch.  If both were to pass the guard, both
would fetch and reconcile. -/
def lmRunOverlapped (ctl : StoreCtl) (cid : String) (f1 f2 : Bool)
    (serverMsgs : List Message) : StoreCtl :=
  match lmBegin ctl cid f1 with
  | none => lmRunSingle ctl cid f2 serverMsgs
  | some mid =>
      match lmBegin mid cid f2 with
      | none => lmFinish mid cid serverMsgs
      | some mid2 => lmFinish (lmFinish mid2 cid serverMsgs) cid serverMsgs

/-- `STORAGE_VERSION` from `persistence.ts`. -/
def STORAGE_VERSION : Nat := 1

/-- The versioned record `saveAgentState` serializes. -/
structure PersistedData where
  version : Nat
  timestamp : Nat
  data : SMap ChatAgentState
  deriving DecidableEq, Repr

/-- Contents of the `localStorage` slot: absent, an unreadable blob
(`JSON.parse` throws), or a parsed record.  `JSON.parse ∘ JSON.stringify`
is the identity on this plain data, so a successfully written record is
stored structurally. -/
inductive StoredValue where
  | absent
  | unparseable
  | record (p : PersistedData)
  deriving DecidableEq, Repr

/-- `saveAgentState`: wrap with version and timestamp and write. -/
def saveAgentState (st : SMap ChatAgentState) (now : Nat) : StoredValue :=
  StoredValue.record { version := STORAGE_VERSION, timestamp := now, data := st }

/-- `loadAgentState`: `null` when absent, unreadable, or
version-mismatched; the snapshot otherwise. -/
def loadAgentState : StoredValue → Option (SMap ChatAgentState)
  | .absent => none
  | .unparseable => none
  | .record p => if p.version = STORAGE_VERSION then some p.data else none

/-- Concatenation of streamed deltas in order. -/
def concatAll : List String → String
  | [] => ""
  | d :: ds => d ++ concatAll ds

/-- The spec's reconciliation-rule wording, stated independently of the
implementation: retain a local message iff it is still streaming or carries
the client-generated id prefix, and its id is not in the server result. -/
def retainedSpec (s : ChatState) (cid : String) (server : List Message) :
    List Message :=
  (((mapFind s.messagesByConversation cid).getD []).filterMap
      (mapFind s.messages)).filter
    (fun m => (m.status == "streaming" || m.id.startsWith "msg_") &&
              !(server.any (fun sm => sm.id == m.id)))

/-- Last element of a list whose key is `k` (later entries overwrite
earlier ones when folded into a map). -/
def lookupLastBy {V : Type} (key : V → String) : List V → String → Option V
  | [], _ => none
  | v :: rest, k =>
      match lookupLastBy key rest k with
      | some v2 => some v2
      | none => if key v = k then some v else none

theorem mapInsert_same {V : Type} (l : SMap V) (k : String) (v : V)
    (h : mapFind l k = some v) : mapInsert l k v = l := by
  induction l with
  | nil => simp [mapFind] at h
  | cons hd tl ih =>
    obtain ⟨k0, v0⟩ := hd
    by_cases h0 : k0 = k
    · subst h0
      simp [mapFind] at h
      simp [mapInsert, h]
    · simp [mapFind, h0] at h
      simp [mapInsert, h0, ih h]

theorem mapInsert_mapInsert {V : Type} (l : SMap V) (k : String) (a b : V) :
    mapInsert (mapInsert l k a) k b = mapInsert l k b := by
  induction l with
  | nil => simp [mapInsert]
  | cons hd tl ih =>
    obtain ⟨k0, v0⟩ := hd
    by_cases h0 : k0 = k
    · subst h0
      simp [mapInsert]
    · simp [mapInsert, h0, ih]

theorem string_append_assoc (a b c : String) : (a ++ b) ++ c = a ++ (b ++ c) := by
  apply String.ext
  simp [String.data_append]

/-- The empty store state (`createStore` initialization with no persisted
agent state). -/
def emptyChat : ChatState :=
  { conversations := [], messages := [], attachments := []
    messagesByConversation := [], streaming := [], toolCallsInProgress := []
    agentStateByConversation := [], activeConversationId := none }

/-- The canonical streaming sequence of C1:
`START(m)` then the deltas then `END(m)`. -/
def textStreamSeq (m : String) (role cid : Option String) (now : Nat)
    (deltas : List String) : List AgEvent :=
  AgEvent.textMessageStart m role cid now ::
    ((deltas.map fun d => AgEvent.textMessageContent m (some d)) ++
      [AgEvent.textMessageEnd m])

/-- The message record `TEXT_MESSAGE_START` writes. -/
def startMsg (s : ChatState) (mid : String) (role cid : Option String)
    (now : Nat) : Message :=
  let old := mapFind s.messages mid
  { id := mid
    role := role.getD "assistant"
    content := ""
    conversationId := cid.orElse (fun _ => s.activeConversationId)
    status := "streaming"
    createdAt := some now
    toolCalls := (old.map (·.toolCalls)).getD []
    toolCallId := old.bind (·.toolCallId) }

theorem onTextMessageStart_messages (s : ChatState) (mid : String)
    (role cid : Option String) (now : Nat) :
    (onTextMessageStart s mid role cid now).messages =
      mapInsert s.messages mid (startMsg s mid role cid now) := by
  unfold onTextMessageStart startMsg
  cases cid.orElse (fun _ => s.activeConversationId) <;> rfl

theorem onTextMessageStart_streaming (s : ChatState) (mid : String)
    (role cid : Option String) (now : Nat) :
    (onTextMessageStart s mid role cid now).streaming =
      mapInsert s.streaming mid "" := by
  unfold onTextMessageStart
  cases cid.orElse (fun _ => s.activeConversationId) <;> rfl

/-- Folding `TEXT_MESSAGE_CONTENT` deltas over a state with an open
buffer appends their concatenation to the buffer and touches nothing
else. -/
theorem contents_fold (deltas : List String) (s : ChatState) (m : String)
    (t : String) (h : mapFind s.streaming m = some t) :
    processEvents s (deltas.map fun d => AgEvent.textMessageContent m (some d)) =
      { s with streaming := mapInsert s.streaming m (t ++ concatAll deltas) } := by
  induction deltas generalizing s t with
  | nil =>
    simp [processEvents, concatAll]
    have : mapInsert s.streaming m t = s.streaming := mapInsert_same _ _ _ h
    rw [this]
  | cons d ds ih =>
    have step : handleEvent s (AgEvent.textMessageContent m (some d)) =
        { s with streaming := mapInsert s.streaming m (t ++ d) } := by
      simp [handleEvent, onTextMessageContent, h]
    have hfind : mapFind ({ s with streaming := mapInsert s.streaming m (t ++ d) } :
        ChatState).streaming m = some (t ++ d) := by
      simp [mapFind_insert]
    calc processEvents s ((d :: ds).map fun x => AgEvent.textMessageContent m (some x))
        = processEvents ({ s with streaming := mapInsert s.streaming m (t ++ d) })
            (ds.map fun x => AgEvent.textMessageContent m (some x)) := by
          simp [processEvents, step]
      _ = { s with streaming := mapInsert s.streaming m (t ++ d ++ concatAll ds) } := by
          rw [ih _ _ hfind]
          simp [mapInsert_mapInsert]
      _ = { s with streaming := mapInsert s.streaming m (t ++ concatAll (d :: ds)) } := by
          rw [concatAll, string_append_assoc]

theorem string_empty_append (a : String) : ("" : String) ++ a = a := by
  apply String.ext
  simp [String.data_append]

/-- C1.  A full `TEXT_MESSAGE_START(m)` → N×`CONTENT(m, delta_i)` →
`TEXT_MESSAGE_END(m)` sequence leaves `Message(m).content` equal to the
concatenation of the deltas in order, status `completed`, and no streaming
buffer entry for `m` — from any starting state. -/
theorem text_message_stream_concat (s : ChatState) (m : String)
    (role cid : Option String) (now : Nat) (deltas : List String) :
    (mapFind (processEvents s (textStreamSeq m role cid now deltas)).messages m).map
        Message.content = some (concatAll deltas) ∧
    (mapFind (processEvents s (textStreamSeq m role cid now deltas)).messages m).map
        Message.status = some "completed" ∧
    mapFind (processEvents s (textStreamSeq m role cid now deltas)).streaming m = none := by
  have hseq : processEvents s (textStreamSeq m role cid now deltas) =
      handleEvent
        (processEvents (handleEvent s (AgEvent.textMessageStart m role cid now))
          (deltas.map fun d => AgEvent.textMessageContent m (some d)))
        (AgEvent.textMessageEnd m) := by
    simp [textStreamSeq, processEvents]
  set s1 := handleEvent s (AgEvent.textMessageStart m role cid now) with hs1
  have h1s : mapFind s1.streaming m = some "" := by
    rw [hs1]
    simp [handleEvent, onTextMessageStart_streaming, mapFind_insert]
  have h1m : mapFind s1.messages m = some (startMsg s m role cid now) := by
    rw [hs1]
    simp [handleEvent, onTextMessageStart_messages, mapFind_insert]
  have hCs : processEvents s1 (deltas.map fun d => AgEvent.textMessageContent m (some d)) =
      { s1 with streaming := mapInsert s1.streaming m (concatAll deltas) } := by
    rw [contents_fold deltas s1 m "" h1s, string_empty_append]
  rw [hseq, hCs]
  simp only [handleEvent, onTextMessageEnd, mapFind_insert, if_pos rfl]
  by_cases hc : concatAll deltas = ""
  · simp [hc, mapFind_modify, mapFind_erase, h1m, startMsg]
  · simp [hc, mapFind_modify, mapFind_erase, h1m]

/-- C3.  When a non-empty streaming buffer exists for `m`, a cancel event
flushes the partial text into the content and marks the message canceled. -/
theorem cancel_flushes_partial_text (s : ChatState) (m : String) (msg : Message)
    (t : String) (hm : mapFind s.messages m = some msg)
    (hs : mapFind s.streaming m = some t) (ht : t ≠ "") :
    (mapFind (handleEvent s (AgEvent.messageCanceled m)).messages m).map
        Message.content = some t ∧
    (mapFind (handleEvent s (AgEvent.messageCanceled m)).messages m).map
        Message.status = some "canceled" := by
  simp [handleEvent, onMessageCanceled, hs, ht, mapFind_modify, hm]

def cancelDemoMsg : Message :=
  { id := "m", role := "assistant", content := "", conversationId := some "c"
    status := "streaming", createdAt := some 3, toolCalls := [], toolCallId := none }

def cancelDemoState : ChatState :=
  { emptyChat with
      messages := [("m", cancelDemoMsg)]
      messagesByConversation := [("c", ["m"])]
      streaming := [("m", "ab")] }

theorem cancel_flushes_partial_text_witness :
    (mapFind (handleEvent cancelDemoState (AgEvent.messageCanceled "m")).messages "m").map
        Message.content = some "ab" ∧
    (mapFind (handleEvent cancelDemoState (AgEvent.messageCanceled "m")).messages "m").map
        Message.status = some "canceled" :=
  cancel_flushes_partial_text cancelDemoState "m" cancelDemoMsg "ab" rfl rfl
    (by decide)

/-- C10.  A `TOOL_CALL_END` whose id has no in-progress entry leaves the
whole store state unchanged. -/
theorem tool_call_end_missing_noop (s : ChatState) (tcid : String)
    (h : mapFind s.toolCallsInProgress tcid = none) :
    handleEvent s (AgEvent.toolCallEnd tcid) = s := by
  simp [handleEvent, onToolCallEnd, h]

theorem tool_call_end_missing_noop_witness :
    handleEvent emptyChat (AgEvent.toolCallEnd "t") = emptyChat :=
  tool_call_end_missing_noop emptyChat "t" rfl

theorem mapModify_present {V : Type} (l : SMap V) (k : String) (f : V → V)
    (v : V) (h : mapFind l k = some v) : mapModify l k f = mapInsert l k (f v) := by
  induction l with
  | nil => simp [mapFind] at h
  | cons hd tl ih =>
    obtain ⟨k0, v0⟩ := hd
    by_cases h0 : k0 = k
    · subst h0
      simp [mapFind] at h
      simp [mapModify, mapInsert, h]
    · simp [mapFind, h0] at h
      simp [mapModify, mapInsert, h0, ih h]

theorem string_append_empty (a : String) : a ++ ("" : String) = a := by
  apply String.ext
  simp [String.data_append]

/-- Folding `TOOL_CALL_ARGS` deltas over a state with an in-progress entry
appends their concatenation to its `args` and touches nothing else. -/
theorem args_fold (ds : List String) (s : ChatState) (tcid : String)
    (tc : ToolCallInProgress) (h : mapFind s.toolCallsInProgress tcid = some tc) :
    processEvents s (ds.map fun d => AgEvent.toolCallArgs tcid (some d)) =
      { s with toolCallsInProgress := mapInsert s.toolCallsInProgress tcid { tc with args := tc.args ++ concatAll ds } } := by
  induction ds generalizing s tc with
  | nil =>
    simp [processEvents, concatAll, string_append_empty]
    have : mapInsert s.toolCallsInProgress tcid tc = s.toolCallsInProgress :=
      mapInsert_same _ _ _ h
    rw [this]
  | cons d rest ih =>
    have step : handleEvent s (AgEvent.toolCallArgs tcid (some d)) =
        { s with toolCallsInProgress := mapInsert s.toolCallsInProgress tcid { tc with args := tc.args ++ d } } := by
      simp [handleEvent, onToolCallArgs, mapModify_present _ _ _ _ h]
    have hfind : mapFind (mapInsert s.toolCallsInProgress tcid { tc with args := tc.args ++ d }) tcid =
        some { tc with args := tc.args ++ d } := by
      simp [mapFind_insert]
    calc processEvents s ((d :: rest).map fun x => AgEvent.toolCallArgs tcid (some x))
        = processEvents ({ s with toolCallsInProgress := mapInsert s.toolCallsInProgress tcid { tc with args := tc.args ++ d } })
            (rest.map fun x => AgEvent.toolCallArgs tcid (some x)) := by
          simp [processEvents, step]
      _ = { s with toolCallsInProgress := mapInsert (mapInsert s.toolCallsInProgress tcid { tc with args := tc.args ++ d }) tcid { tc with args := tc.args ++ d ++ concatAll rest } } := by
          rw [ih _ _ hfind]
      _ = { s with toolCallsInProgress := mapInsert s.toolCallsInProgress tcid { tc with args := tc.args ++ concatAll (d :: rest) } } := by
          rw [mapInsert_mapInsert, concatAll, string_append_assoc]

theorem onToolCallStart_inProgress (s : ChatState) (p tcid tcName : String)
    (cid : Option String) (now : Nat) :
    (onToolCallStart s p tcid tcName cid now).toolCallsInProgress =
      mapInsert s.toolCallsInProgress tcid
        { id := tcid, name := tcName, args := "", messageId := p } := by
  unfold onToolCallStart
  cases hm : mapFind s.messages p
  · cases cid.orElse (fun _ => s.activeConversationId) <;> rfl
  · rfl
theorem onToolCallStart_messages_none (s : ChatState) (p tcid tcName : String)
    (cid : Option String) (now : Nat) (hm : mapFind s.messages p = none) :
    mapFind (onToolCallStart s p tcid tcName cid now).messages p =
      some { id := p, role := "assistant", content := ""
             conversationId := cid.orElse (fun _ => s.activeConversationId)
             status := "completed", createdAt := some now
             toolCalls := [], toolCallId := none } := by
  unfold onToolCallStart
  rw [hm]
  cases hc : cid.orElse (fun _ => s.activeConversationId) <;>
    simp [hc, mapFind_insert]

theorem onToolCallStart_messages_some (s : ChatState) (p tcid tcName : String)
    (cid : Option String) (now : Nat) (pm : Message)
    (hm : mapFind s.messages p = some pm) :
    (onToolCallStart s p tcid tcName cid now).messages = s.messages := by
  unfold onToolCallStart
  rw [hm]

theorem onToolCallEnd_found (s : ChatState) (tcid : String)
    (tc : ToolCallInProgress) (pm : Message)
    (h1 : mapFind s.toolCallsInProgress tcid = some tc)
    (h2 : mapFind s.messages tc.messageId = some pm) :
    onToolCallEnd s tcid =
      { s with
          messages := mapModify s.messages tc.messageId (fun m =>
            { m with toolCalls :=
                if m.toolCalls.any (fun ex => ex.id = tc.id) then m.toolCalls
                else m.toolCalls ++
                  [{ id := tc.id, name := tc.name, arguments := tc.args }] })
          toolCallsInProgress := mapErase s.toolCallsInProgress tcid } := by
  simp only [onToolCallEnd, h1, h2]

theorem onToolCallEnd_missing (s : ChatState) (tcid : String)
    (h : mapFind s.toolCallsInProgress tcid = none) :
    onToolCallEnd s tcid = s := by
  unfold onToolCallEnd
  rw [h]

/-- The canonical tool-call sequence of C4: `TOOL_CALL_START` with parent
`p`, the args deltas, then `TOOL_CALL_END`. -/
def toolCallSeq (p tcid tcName : String) (cid : Option String) (now : Nat)
    (ds : List String) : List AgEvent :=
  AgEvent.toolCallStart p tcid tcName cid now ::
    ((ds.map fun d => AgEvent.toolCallArgs tcid (some d)) ++
      [AgEvent.toolCallEnd tcid])

/-- C4.  `TOOL_CALL_START(tc, parent=p)` → args deltas → `TOOL_CALL_END(tc)`
yields exactly one `toolCalls` entry with id `tc` on the parent, whose
arguments are the concatenation of the deltas; the in-progress entry is
removed, and redelivering the end event leaves the state unchanged.  The
hypothesis rules out a pre-existing entry with the same tool-call id on the
parent (otherwise dedupe keeps the old entry). -/
theorem tool_call_round_trip (s : ChatState) (p tcid tcName : String)
    (cid : Option String) (now : Nat) (ds : List String)
    (hclean : ∀ msg ex, mapFind s.messages p = some msg → ex ∈ msg.toolCalls →
      ex.id ≠ tcid) :
    (∃ msg, mapFind (processEvents s (toolCallSeq p tcid tcName cid now ds)).messages p
        = some msg ∧
      msg.toolCalls.filter (fun ex => ex.id == tcid) =
        [{ id := tcid, name := tcName, arguments := concatAll ds }]) ∧
    mapFind (processEvents s (toolCallSeq p tcid tcName cid now ds)).toolCallsInProgress
      tcid = none ∧
    handleEvent (processEvents s (toolCallSeq p tcid tcName cid now ds))
        (AgEvent.toolCallEnd tcid) =
      processEvents s (toolCallSeq p tcid tcName cid now ds) := by
  have hseq : processEvents s (toolCallSeq p tcid tcName cid now ds) =
      handleEvent
        (processEvents (handleEvent s (AgEvent.toolCallStart p tcid tcName cid now))
          (ds.map fun d => AgEvent.toolCallArgs tcid (some d)))
        (AgEvent.toolCallEnd tcid) := by
    simp [toolCallSeq, processEvents]
  set s1 := handleEvent s (AgEvent.toolCallStart p tcid tcName cid now) with hs1
  have h1tc : mapFind s1.toolCallsInProgress tcid =
      some { id := tcid, name := tcName, args := "", messageId := p } := by
    rw [hs1]
    simp [handleEvent, onToolCallStart_inProgress, mapFind_insert]
  have h1msg : ∃ pm, mapFind s1.messages p = some pm ∧
      ∀ ex ∈ pm.toolCalls, ex.id ≠ tcid := by
    cases hm : mapFind s.messages p with
    | none =>
      refine ⟨{ id := p, role := "assistant", content := "", conversationId := cid.orElse (fun _ => s.activeConversationId), status := "completed", createdAt := some now, toolCalls := [], toolCallId := none }, ?_, ?_⟩
      · rw [hs1]
        show mapFind (onToolCallStart s p tcid tcName cid now).messages p = _
        exact onToolCallStart_messages_none s p tcid tcName cid now hm
      · simp
    | some pm =>
      refine ⟨pm, ?_, fun ex hx => hclean pm ex hm hx⟩
      rw [hs1]
      show mapFind (onToolCallStart s p tcid tcName cid now).messages p = some pm
      rw [onToolCallStart_messages_some s p tcid tcName cid now pm hm, hm]
  obtain ⟨pm, hmp, hex⟩ := h1msg
  have hfold2 : processEvents s1 (ds.map fun d => AgEvent.toolCallArgs tcid (some d)) =
      { s1 with toolCallsInProgress := mapInsert s1.toolCallsInProgress tcid { id := tcid, name := tcName, args := concatAll ds, messageId := p } } := by
    rw [args_fold ds s1 tcid _ h1tc]
    simp [string_empty_append]
  rw [hseq, hfold2]
  have hfindE : mapFind (mapInsert s1.toolCallsInProgress tcid
      { id := tcid, name := tcName, args := concatAll ds, messageId := p }) tcid =
      some { id := tcid, name := tcName, args := concatAll ds, messageId := p } := by
    simp [mapFind_insert]
  have hendEq := onToolCallEnd_found
    ({ s1 with toolCallsInProgress := mapInsert s1.toolCallsInProgress tcid { id := tcid, name := tcName, args := concatAll ds, messageId := p } })
    tcid { id := tcid, name := tcName, args := concatAll ds, messageId := p }
    pm hfindE (by exact hmp)
  simp only [handleEvent]
  rw [hendEq]
  refine ⟨⟨{ pm with toolCalls := pm.toolCalls ++ [⟨tcid, tcName, concatAll ds⟩] }, ?_, ?_⟩, ?_, ?_⟩
  · simp [mapFind_modify, hmp]
    exact hex
  · rw [List.filter_append]
    have h1 : pm.toolCalls.filter (fun ex => ex.id == tcid) = [] := by
      rw [List.filter_eq_nil_iff]
      intro x hx
      simp [hex x hx]
    simp [h1]
  · simp [mapFind_erase]
  · exact onToolCallEnd_missing _ tcid (by simp [mapFind_erase])

theorem tool_call_round_trip_witness :
    (∃ msg, mapFind (processEvents emptyChat (toolCallSeq "p" "t" "f" (some "c") 3 ["ab", "cd"])).messages "p" = some msg ∧
      msg.toolCalls.filter (fun ex => ex.id == "t") =
        [{ id := "t", name := "f", arguments := concatAll ["ab", "cd"] }]) ∧
    mapFind (processEvents emptyChat (toolCallSeq "p" "t" "f" (some "c") 3 ["ab", "cd"])).toolCallsInProgress "t" = none ∧
    handleEvent (processEvents emptyChat (toolCallSeq "p" "t" "f" (some "c") 3 ["ab", "cd"]))
        (AgEvent.toolCallEnd "t") =
      processEvents emptyChat (toolCallSeq "p" "t" "f" (some "c") 3 ["ab", "cd"]) :=
  tool_call_round_trip emptyChat "p" "t" "f" (some "c") 3 ["ab", "cd"]
    (fun _ _ h _ => nomatch h)

/-- C9.  Saving a snapshot and loading returns a deep-equal value; loading
returns `null` when the slot is absent, unreadable, or carries a record
with a version different from the current format version. -/
theorem persistence_round_trip (st : SMap ChatAgentState) (now : Nat)
    (p : PersistedData) (hv : p.version ≠ STORAGE_VERSION) :
    loadAgentState (saveAgentState st now) = some st ∧
    loadAgentState (StoredValue.record p) = none ∧
    loadAgentState StoredValue.absent = none ∧
    loadAgentState StoredValue.unparseable = none := by
  refine ⟨?_, ?_, rfl, rfl⟩
  · simp [loadAgentState, saveAgentState]
  · simp [loadAgentState, hv]

theorem persistence_round_trip_witness :
    loadAgentState (saveAgentState [("c", { suggestedQuestions := some ["q"], attachments := none })] 7) =
      some [("c", { suggestedQuestions := some ["q"], attachments := none })] ∧
    loadAgentState (StoredValue.record { version := 2, timestamp := 0, data := [] }) = none ∧
    loadAgentState StoredValue.absent = none ∧
    loadAgentState StoredValue.unparseable = none :=
  persistence_round_trip [("c", { suggestedQuestions := some ["q"], attachments := none })] 7
    { version := 2, timestamp := 0, data := [] } (by decide)

/-- C8.  An `attachment.failed` event whose file id has no entry in the
active conversation's agent-state attachments leaves the whole
per-conversation agent-state map unchanged; only the global attachment map
records the failed state and the error. -/
theorem attachment_failed_no_fabricate (s : ChatState) (cid fid : String)
    (err : Option String) (hactive : s.activeConversationId = some cid)
    (habsent : ((mapFind s.agentStateByConversation cid).bind (·.attachments)).bind
      (fun am => mapFind am fid) = none) :
    (handleEvent s (AgEvent.attachmentFailed fid err)).agentStateByConversation =
      s.agentStateByConversation ∧
    (∀ a, mapFind s.attachments fid = some a →
      mapFind (handleEvent s (AgEvent.attachmentFailed fid err)).attachments fid =
        some { a with state := "failed", metadata := { a.metadata with error := some (err.getD "Upload failed") } }) := by
  constructor
  · simp only [handleEvent, onAttachmentFailed]
    cases hg : mapFind s.attachments fid <;> simp [hg, hactive, habsent]
  · intro a ha
    simp only [handleEvent, onAttachmentFailed]
    simp [ha, hactive, habsent, mapFind_modify]

def failDemoAttachment : Attachment :=
  { id := "f1", name := "doc.pdf", state := "uploading"
    metadata := { progress := some 10, error := none } }

def failDemoState : ChatState :=
  { emptyChat with
      attachments := [("f1", failDemoAttachment)]
      agentStateByConversation := [("c", { suggestedQuestions := none, attachments := some [] })]
      activeConversationId := some "c" }

theorem attachment_failed_no_fabricate_witness :
    (handleEvent failDemoState (AgEvent.attachmentFailed "f1" (some "boom"))).agentStateByConversation =
      failDemoState.agentStateByConversation ∧
    (∀ a, mapFind failDemoState.attachments "f1" = some a →
      mapFind (handleEvent failDemoState (AgEvent.attachmentFailed "f1" (some "boom"))).attachments "f1" =
        some { a with state := "failed", metadata := { a.metadata with error := some ((some "boom").getD "Upload failed") } }) :=
  attachment_failed_no_fabricate failDemoState "c" "f1" (some "boom") rfl rfl

def cOld : Conversation := { id := "old", title := none, status := "active" }

def wholesaleDemoState : ChatState :=
  { emptyChat with conversations := [("old", cOld)] }

/-- C7 counterexample.  `loadConversations` whose fetch returns the empty
list does not clear a previously stored conversation: the map still holds
`old`, so the replacement is not wholesale and conversations absent from
the fetched list survive. -/
theorem load_conversations_not_wholesale_cx :
    mapFind (loadConversationsApply wholesaleDemoState []).conversations "old" =
      some cOld := rfl

theorem mapFind_foldl_insert {V : Type} (key : V → String) (l : List V)
    (m : SMap V) (k : String) :
    mapFind (l.foldl (fun mp v => mapInsert mp (key v) v) m) k =
      (lookupLastBy key l k).elim (mapFind m k) some := by
  induction l generalizing m with
  | nil => simp [lookupLastBy]
  | cons v rest ih =>
    rw [List.foldl_cons, ih]
    cases hr : lookupLastBy key rest k with
    | some v2 => simp [lookupLastBy, hr]
    | none =>
      by_cases hk : key v = k <;>
        simp [lookupLastBy, hr, mapFind_insert, hk]

/-- C7 (amended).  `loadConversations` merges the fetched list into the
conversation map: every fetched conversation is installed under its id
(later duplicates win), and conversations already present but absent from
the fetched list remain untouched. -/
theorem load_conversations_merge (s : ChatState) (fetched : List Conversation)
    (cid : String) :
    mapFind (loadConversationsApply s fetched).conversations cid =
      (lookupLastBy (fun c => c.id) fetched cid).elim (mapFind s.conversations cid) some := by
  have h := mapFind_foldl_insert (fun c => c.id) fetched s.conversations cid
  simpa [loadConversationsApply] using h

theorem contains_addId (l : List String) (x : String) :
    (addId l x).contains x = true := by
  unfold addId
  by_cases hc : l.contains x = true
  · rw [if_pos hc]
    exact hc
  · rw [if_neg hc]
    simp

/-- C6.  While a load for `cid` is in flight (`lmBegin` succeeded), a
second `loadMessages` call for the same id performs no fetch and changes
nothing, so the overlapped execution ends in the same state as a single
call; and a call for an id already in `loadedConversations`, without
`force`, performs no fetch either. -/
theorem load_messages_guards (ctl : StoreCtl) (cid : String) (f1 f2 : Bool)
    (serverMsgs : List Message) (mid : StoreCtl)
    (h : lmBegin ctl cid f1 = some mid) :
    lmFetches mid cid f2 = false ∧
    lmRunOverlapped ctl cid f1 f2 serverMsgs = lmRunSingle ctl cid f1 serverMsgs ∧
    (∀ c2 : StoreCtl, c2.loadedConversations.contains cid →
      lmBegin c2 cid false = none) := by
  have hmid : mid.loadingConversations = addId ctl.loadingConversations cid := by
    unfold lmBegin at h
    split at h
    · exact Option.noConfusion h
    · split at h
      · exact Option.noConfusion h
      · injection h with h'
        rw [← h']
  have hskip : lmBegin mid cid f2 = none := by
    unfold lmBegin
    rw [hmid, if_pos (contains_addId _ _)]
  refine ⟨?_, ?_, ?_⟩
  · simp [lmFetches, hskip]
  · unfold lmRunOverlapped lmRunSingle
    simp [h, hskip]
  · intro c2 hc2
    simp at hc2
    unfold lmBegin
    by_cases hl : c2.loadingConversations.contains cid = true
    · rw [if_pos hl]
    · rw [if_neg hl]
      have hgate : (!false && c2.loadedConversations.contains cid) = true := by
        simp [hc2]
      rw [if_pos hgate]

theorem load_messages_guards_witness :
    lmFetches { chat := emptyChat, loadingConversations := ["c"], loadedConversations := [] } "c" false = false ∧
    lmRunOverlapped { chat := emptyChat, loadingConversations := [], loadedConversations := [] } "c" false false [] =
      lmRunSingle { chat := emptyChat, loadingConversations := [], loadedConversations := [] } "c" false [] ∧
    (∀ c2 : StoreCtl, c2.loadedConversations.contains "c" →
      lmBegin c2 "c" false = none) :=
  load_messages_guards { chat := emptyChat, loadingConversations := [], loadedConversations := [] }
    "c" false false [] { chat := emptyChat, loadingConversations := ["c"], loadedConversations := [] } rfl

theorem lookupLastBy_mem {V : Type} (key : V → String) (l : List V) (k : String)
    (v : V) (h : lookupLastBy key l k = some v) : v ∈ l := by
  induction l with
  | nil => simp [lookupLastBy] at h
  | cons x rest ih =>
    unfold lookupLastBy at h
    cases hr : lookupLastBy key rest k with
    | some v2 =>
      rw [hr] at h
      injection h with h'
      subst h'
      exact List.mem_cons_of_mem _ (ih hr)
    | none =>
      rw [hr] at h
      by_cases hk : key x = k
      · rw [if_pos hk] at h
        injection h with h'
        subst h'
        exact List.mem_cons_self _ _
      · rw [if_neg hk] at h
        exact absurd h (by simp)

theorem mem_lmSorted_iff (s : ChatState) (cid : String) (server : List Message)
    (a : Message) :
    a ∈ lmSorted s cid server ↔ a ∈ lmFinalMessages s cid server :=
  (List.perm_insertionSort byCreatedAt (lmFinalMessages s cid server)).mem_iff

/-- The second reconciliation pass of `loadMessages` contributes nothing
when no events interleave: every old sequence id that still resolves to a
streaming/optimistic message is already covered by the installed ids. -/
theorem lmCarryOver_nil (s : ChatState) (cid : String) (server : List Message) :
    lmCarryOver s cid server = [] := by
  unfold lmCarryOver
  rw [List.map_eq_nil_iff]
  rw [List.filter_eq_nil_iff]
  intro m hm
  rw [List.mem_filterMap] at hm
  obtain ⟨i, hi, hfind⟩ := hm
  have hfold := mapFind_foldl_insert (fun v => v.id) (lmSorted s cid server)
    s.messages i
  rw [show lmNewMessages s cid server =
    (lmSorted s cid server).foldl (fun mp v => mapInsert mp v.id v) s.messages
    from rfl] at hfind
  rw [hfold] at hfind
  cases hl : lookupLastBy (fun v => v.id) (lmSorted s cid server) i with
  | some v =>
    rw [hl] at hfind
    simp only [Option.elim] at hfind
    injection hfind with h'
    have hv : m ∈ lmSorted s cid server := by
      rw [← h']
      exact lookupLastBy_mem _ _ _ _ hl
    have hmm : m.id ∈ lmMessageIds s cid server :=
      List.mem_map_of_mem (·.id) hv
    simp [hmm]
  | none =>
    rw [hl] at hfind
    simp only [Option.elim] at hfind
    by_cases hp : preservePred m = true
    · have hmemcur : m ∈ (lmCurrentIds s cid).filterMap (mapFind s.messages) :=
        List.mem_filterMap.mpr ⟨i, hi, hfind⟩
      have hmemids : m.id ∈ lmMessageIds s cid server := by
        by_cases hs : server.any (fun sm => sm.id == m.id) = true
        · rw [List.any_eq_true] at hs
          obtain ⟨sm, hsm, hbeq⟩ := hs
          have hid : sm.id = m.id := by simpa using hbeq
          have h1 : sm ∈ lmSorted s cid server := by
            rw [mem_lmSorted_iff]
            exact List.mem_append_right _ hsm
          have h2 : sm.id ∈ lmMessageIds s cid server :=
            List.mem_map_of_mem (·.id) h1
          rw [hid] at h2
          exact h2
        · have hmf : m ∈ lmFinalMessages s cid server := by
            unfold lmFinalMessages
            apply List.mem_append_left
            rw [List.mem_filter]
            refine ⟨?_, by simp [hs]⟩
            rw [List.mem_filter]
            exact ⟨hmemcur, hp⟩
          have h1 : m ∈ lmSorted s cid server := (mem_lmSorted_iff _ _ _ _).mpr hmf
          exact List.mem_map_of_mem (·.id) h1
      simp [hmemids]
    · simp [hp]

theorem lmFinal_eq_retained (s : ChatState) (cid : String)
    (server : List Message) :
    lmFinalMessages s cid server = retainedSpec s cid server ++ server := by
  unfold lmFinalMessages retainedSpec preservePred lmCurrentIds
  rw [List.filter_filter]
  congr 1
  apply List.filter_congr
  intro a _
  rw [Bool.and_comm]

/-- C2.  `loadMessages` installs, as the conversation's sequence, exactly
the ids of the retained local messages (still streaming or client-prefixed,
and whose id is not in the server result — server copy wins on collision)
together with the server messages, sorted ascending by `createdAt` with a
missing timestamp treated as epoch 0. -/
theorem loadMessages_reconciliation (s : ChatState) (cid : String)
    (server : List Message) :
    mapFind (loadMessagesApply s cid server).messagesByConversation cid =
      some ((sortByCreatedAt (retainedSpec s cid server ++ server)).map (·.id)) ∧
    List.Sorted byCreatedAt (sortByCreatedAt (retainedSpec s cid server ++ server)) := by
  constructor
  · unfold loadMessagesApply
    rw [show (({ s with messages := lmNewMessages s cid server, messagesByConversation := mapInsert s.messagesByConversation cid (lmMessageIds s cid server ++ lmCarryOver s cid server) } : ChatState)).messagesByConversation = mapInsert s.messagesByConversation cid (lmMessageIds s cid server ++ lmCarryOver s cid server) from rfl]
    rw [lmCarryOver_nil, List.append_nil, mapFind_insert, if_pos rfl]
    unfold lmMessageIds lmSorted
    rw [lmFinal_eq_retained]
  · exact List.sorted_insertionSort byCreatedAt _

theorem onMessageCreated_messages (s : ChatState) (m0 : Message) :
    (onMessageCreated s m0).messages = mapInsert s.messages m0.id m0 := by
  unfold onMessageCreated
  cases m0.conversationId <;> rfl

theorem onToolCallResult_find_ne (s : ChatState) (mid tcid : String)
    (content role : Option String) (now : Nat) (m : String) (hne : mid ≠ m) :
    mapFind (onToolCallResult s mid tcid content role now).messages m =
      mapFind s.messages m := by
  unfold onToolCallResult
  dsimp only
  split <;> simp [mapFind_insert, hne]

theorem onToolCallStart_find_ne (s : ChatState) (p tcid tcName : String)
    (cid : Option String) (now : Nat) (m : String) (hne : p ≠ m) :
    mapFind (onToolCallStart s p tcid tcName cid now).messages m =
      mapFind s.messages m := by
  unfold onToolCallStart
  cases hp : mapFind s.messages p with
  | some pm => rfl
  | none =>
    cases cid.orElse (fun _ => s.activeConversationId) <;>
      simp [mapFind_insert, hne]

theorem onTextMessageEnd_find_ne (s : ChatState) (mid m : String)
    (hne : mid ≠ m) :
    mapFind (onTextMessageEnd s mid).messages m = mapFind s.messages m := by
  unfold onTextMessageEnd
  cases hstream : mapFind s.streaming mid with
  | none => simp [mapFind_modify, hne]
  | some t => by_cases ht : t = "" <;> simp [ht, mapFind_modify, hne]

theorem onMessageCanceled_find_ne (s : ChatState) (mid m : String)
    (hne : mid ≠ m) :
    mapFind (onMessageCanceled s mid).messages m = mapFind s.messages m := by
  unfold onMessageCanceled
  cases hstream : mapFind s.streaming mid with
  | none => simp [mapFind_modify, hne]
  | some t => by_cases ht : t = "" <;> simp [ht, mapFind_modify, hne]

theorem storeAttachment_messages (s : ChatState) (a : Attachment) :
    (storeAttachment s a).messages = s.messages := by
  unfold storeAttachment
  cases s.activeConversationId <;> rfl

theorem onAttachmentProgress_messages (s : ChatState) (fid : String)
    (progress : Nat) :
    (onAttachmentProgress s fid progress).messages = s.messages := by
  unfold onAttachmentProgress
  cases mapFind s.attachments fid <;> rfl

theorem onAttachmentFailed_messages (s : ChatState) (fid : String)
    (err : Option String) :
    (onAttachmentFailed s fid err).messages = s.messages := by
  unfold onAttachmentFailed
  dsimp only
  cases hg : mapFind s.attachments fid <;> cases ha : s.activeConversationId <;>
    simp only [hg, ha] <;> try rfl
  all_goals split <;> rfl

theorem onStateSnapshot_messages (s : ChatState) (cid : Option String)
    (snapshot : Option StateSnapshotPayload) :
    (onStateSnapshot s cid snapshot).messages = s.messages := by
  unfold onStateSnapshot
  dsimp only
  split <;> rfl

/-- The events that can rewrite the `content` of message `m` in state `s`:
events that (re)write the whole message record under the same id
(`message.created`, `TEXT_MESSAGE_START`, `TOOL_CALL_RESULT`), and the two
flush paths (`TEXT_MESSAGE_END`, `message.canceled`) when a non-empty
streaming buffer exists for `m`. -/
def contentTouching (s : ChatState) (m : String) : AgEvent → Prop
  | .messageCreated msg => msg.id = m
  | .textMessageStart mid _ _ _ => mid = m
  | .toolCallResult mid _ _ _ _ => mid = m
  | .textMessageEnd mid => mid = m ∧ ∃ t, mapFind s.streaming m = some t ∧ t ≠ ""
  | .messageCanceled mid => mid = m ∧ ∃ t, mapFind s.streaming m = some t ∧ t ≠ ""
  | _ => False

def terminalDemoMsg : Message :=
  { id := "m", role := "assistant", content := "abc", conversationId := some "c"
    status := "completed", createdAt := some 5, toolCalls := [], toolCallId := none }

def terminalDemoState : ChatState :=
  { emptyChat with
      messages := [("m", terminalDemoMsg)]
      messagesByConversation := [("c", ["m"])] }

/-- C5 counterexample.  A message that already reached status `completed`
with content `"abc"` has its content reset to `""` by a redelivered
`TEXT_MESSAGE_START` for the same id, so terminal status does not make the
content immutable under every event handler. -/
theorem terminal_content_mutation_cx :
    (mapFind terminalDemoState.messages "m").map Message.status = some "completed" ∧
    (mapFind terminalDemoState.messages "m").map Message.content = some "abc" ∧
    (mapFind (handleEvent terminalDemoState
        (AgEvent.textMessageStart "m" none (some "c") 7)).messages "m").map
      Message.content = some "" := by
  refine ⟨rfl, rfl, ?_⟩
  rfl

/-- C5 (amended).  Once a message is in a terminal status, every processed
event leaves its content unchanged, except events that rewrite the message
record under the same id (`message.created`, `TEXT_MESSAGE_START`,
`TOOL_CALL_RESULT`) or that flush a non-empty streaming buffer for that id
(`TEXT_MESSAGE_END`, `message.canceled`). -/
theorem terminal_content_immutable (s : ChatState) (m : String) (msg : Message)
    (e : AgEvent) (hm : mapFind s.messages m = some msg)
    (_hterm : msg.status = "completed" ∨ msg.status = "errored" ∨
      msg.status = "canceled")
    (hnt : ¬ contentTouching s m e) :
    (mapFind (handleEvent s e).messages m).map Message.content =
      some msg.content := by
  cases e with
  | conversationCreated c => simp [handleEvent, onConversationCreated, hm]
  | conversationUpdated c => simp [handleEvent, onConversationUpdated, hm]
  | conversationArchived cid => simp [handleEvent, onConversationArchived, hm]
  | messageCreated m0 =>
    simp only [contentTouching] at hnt
    simp only [handleEvent]
    rw [show (onMessageCreated s m0).messages = mapInsert s.messages m0.id m0
      from onMessageCreated_messages s m0]
    simp [mapFind_insert, hnt, hm]
  | textMessageStart mid role cid now =>
    simp only [contentTouching] at hnt
    simp only [handleEvent]
    rw [onTextMessageStart_messages]
    simp [mapFind_insert, hnt, hm]
  | textMessageContent mid delta =>
    simp [handleEvent, onTextMessageContent, hm]
  | textMessageEnd mid =>
    simp only [contentTouching] at hnt
    by_cases hmid : mid = m
    · subst hmid
      simp only [handleEvent, onTextMessageEnd]
      cases hstream : mapFind s.streaming mid with
      | none => simp [mapFind_modify, hm]
      | some t =>
        have ht : t = "" := by
          by_contra ht
          exact hnt ⟨rfl, t, hstream, ht⟩
        subst ht
        simp [mapFind_modify, hm]
    · simp only [handleEvent]
      rw [onTextMessageEnd_find_ne s mid m hmid, hm]
      rfl
  | messageErrored mid =>
    by_cases hmid : mid = m <;>
      simp [handleEvent, onMessageErrored, mapFind_modify, hmid, hm]
  | messageCanceled mid =>
    simp only [contentTouching] at hnt
    by_cases hmid : mid = m
    · subst hmid
      simp only [handleEvent, onMessageCanceled]
      cases hstream : mapFind s.streaming mid with
      | none => simp [mapFind_modify, hm]
      | some t =>
        have ht : t = "" := by
          by_contra ht
          exact hnt ⟨rfl, t, hstream, ht⟩
        subst ht
        simp [mapFind_modify, hm]
    · simp only [handleEvent]
      rw [onMessageCanceled_find_ne s mid m hmid, hm]
      rfl
  | toolCallStart p tcid tcName cid now =>
    by_cases hp : p = m
    · subst hp
      simp only [handleEvent]
      rw [show (onToolCallStart s p tcid tcName cid now).messages = s.messages
        from onToolCallStart_messages_some s p tcid tcName cid now msg hm, hm]
      rfl
    · simp only [handleEvent]
      rw [onToolCallStart_find_ne s p tcid tcName cid now m hp, hm]
      rfl
  | toolCallArgs tcid delta =>
    simp [handleEvent, onToolCallArgs, hm]
  | toolCallEnd tcid =>
    simp only [handleEvent]
    cases ht : mapFind s.toolCallsInProgress tcid with
    | none =>
      rw [onToolCallEnd_missing s tcid ht, hm]
      rfl
    | some tc =>
      cases hpm : mapFind s.messages tc.messageId with
      | none =>
        simp only [onToolCallEnd, ht, hpm]
        simp [hm]
      | some pm =>
        rw [onToolCallEnd_found s tcid tc pm ht hpm]
        by_cases hmid : tc.messageId = m <;>
          simp [mapFind_modify, hmid, hm]
  | toolCallResult mid tcid content role now =>
    simp only [contentTouching] at hnt
    simp only [handleEvent]
    rw [onToolCallResult_find_ne s mid tcid content role now m hnt, hm]
    rfl
  | attachmentUploading a =>
    simp only [handleEvent]
    rw [storeAttachment_messages, hm]
    rfl
  | attachmentProgress fid progress =>
    simp only [handleEvent]
    rw [onAttachmentProgress_messages, hm]
    rfl
  | attachmentAvailable a =>
    simp only [handleEvent]
    rw [storeAttachment_messages, hm]
    rfl
  | attachmentFailed fid err =>
    simp only [handleEvent]
    rw [onAttachmentFailed_messages, hm]
    rfl
  | stateSnapshot cid snapshot =>
    simp only [handleEvent]
    rw [onStateSnapshot_messages, hm]
    rfl

theorem terminal_content_immutable_witness :
    (mapFind (handleEvent terminalDemoState
        (AgEvent.textMessageContent "m" (some "zz"))).messages "m").map
      Message.content = some terminalDemoMsg.content :=
  terminal_content_immutable terminalDemoState "m" terminalDemoMsg
    (AgEvent.textMessageContent "m" (some "zz")) rfl (Or.inl rfl) (fun h => h)
